import Mathlib

/-!
Shallow embedding of the `nanobv` crate (`src/lib.rs`): a fixed-width,
length-tagged bit vector `NanoBV<T>` over an unsigned backing type
`T ∈ {u8, u16, u32, u64}`.

Modelling conventions:
* The backing type `T` is represented by its bit width `w` (8, 16, 32 or 64 in
  the crate; definitions are stated for arbitrary `w`).  A machine value of
  type `T` is a `Nat` below `2 ^ w`.
* Rust panics are modelled as `Option.none`: the crate's
  `["message"][cond as usize]` indexing trick panics unconditionally in every
  build mode, and arithmetic overflow / shift-by-at-least-width /
  division-by-zero panic under Rust's checked (debug and const-eval)
  semantics, which is the semantics embedded here.
* `usize` values (`length`, offsets cast with `as usize`) are `Nat`.
-/

namespace Nanobv

/-- Rust struct `NanoBV<T> { data: T, length: NonZeroUsize }`.  `data` is the
backing word (a `Nat` below `2 ^ w` for every constructible value) and
`length` the logical bit length (`NonZeroUsize` is a plain `Nat` here; claims
about its non-zeroness are proved, not assumed). -/
structure NanoBV where
  data : Nat
  length : Nat
  deriving DecidableEq, Repr

/-- Rust `NanoBV::len`: `self.length.get()`. -/
def NanoBV.len (bv : NanoBV) : Nat :=
  bv.length

/-- Rust `NanoBV::is_empty`: `self.length.get() == 0`. -/
def NanoBV.is_empty (bv : NanoBV) : Bool :=
  bv.length == 0

/-- Rust `mod internals`, `const fn min(a, b) = [a, b][(a >= b) as usize]`. -/
def internals.min (a b : Nat) : Nat :=
  if a ≥ b then b else a

/-- Rust `NanoBV::<T>::upper_bound(length)`: `(1 << n) - 1` when
`n < Self::BIT_SIZE`, and `T::MAX` (that is `2 ^ w - 1`) otherwise. -/
def upper_bound (w n : Nat) : Nat :=
  if n < w then (1 <<< n) - 1 else (1 <<< w) - 1

/-- Rust `NanoBV::<T>::new(data, length)`: panics (here: `none`) unless
`1 <= length <= BIT_SIZE`, then stores `data & upper_bound(length)`. -/
def new (w : Nat) (data length : Nat) : Option NanoBV :=
  if length < 1 ∨ length > w then none
  else some { data := data &&& upper_bound w length, length := length }

/-- Rust `NanoBV::<T>::default()`: `new(T::MIN, BIT_SIZE)`. -/
def default (w : Nat) : Option NanoBV :=
  new w 0 w

/-- Rust `NanoBV::value`: returns `self.data` unchanged. -/
def value (bv : NanoBV) : Nat :=
  bv.data

/-- Rust `NanoBV::set_value(value)`: masks `value` with
`upper_bound(self.length)` and rebuilds via `new` at the same length. -/
def set_value (w : Nat) (bv : NanoBV) (v : Nat) : Option NanoBV :=
  new w (v &&& upper_bound w bv.length) bv.length

/-- Rust `NanoBV::zeros(length)`: panics (here: `none`) on an invalid length,
otherwise `new(0, length)`. -/
def zeros (w length : Nat) : Option NanoBV :=
  if length < 1 ∨ length > w then none
  else new w 0 length

/-- Rust `NanoBV::ones(length)`: panics (here: `none`) on an invalid length,
otherwise `new(upper_bound(length), length)`. -/
def ones (w length : Nat) : Option NanoBV :=
  if length < 1 ∨ length > w then none
  else new w (upper_bound w length) length

/-- Rust `NanoBV::clear()`: `Self::zeros(self.len())`. -/
def clear (w : Nat) (bv : NanoBV) : Option NanoBV :=
  zeros w bv.length

/-- Rust `NanoBV::set()`: `Self::ones(self.len())`. -/
def set (w : Nat) (bv : NanoBV) : Option NanoBV :=
  ones w bv.length

/-- Rust `NanoBV::get_bit(offset)`: panics (here: `none`) when
`offset >= self.len()`; the second guard is the checked-shift panic of
`self.data >> offset` for `offset >= BIT_SIZE` (unreachable once
`offset < length <= BIT_SIZE`).  Returns `(self.data >> offset) & 1`. -/
def get_bit (w : Nat) (bv : NanoBV) (offset : Nat) : Option Nat :=
  if offset ≥ bv.length then none
  else if offset ≥ w then none
  else some ((bv.data >>> offset) &&& 1)

/-- Rust `NanoBV::set_bit(offset)`: panics (here: `none`) when
`offset >= self.len()`; the second guard is the checked-shift panic of
`1 << offset`.  The new value is `self.data | (1 << offset) &
upper_bound(self.length)` (Rust precedence: `&` binds tighter than `|`),
rebuilt via `new` at the same length. -/
def set_bit (w : Nat) (bv : NanoBV) (offset : Nat) : Option NanoBV :=
  if offset ≥ bv.length then none
  else if offset ≥ w then none
  else new w (bv.data ||| ((1 <<< offset) &&& upper_bound w bv.length)) bv.length

/-- Rust `NanoBV::clear_bit(offset)`: panics (here: `none`) when
`offset >= self.len()`; the second guard is the checked-shift panic of
`1 << offset`.  The new value is `self.data & !(1 << offset)`, where `!` is
complement in the backing type, i.e. xor with `T::MAX = 2 ^ w - 1`. -/
def clear_bit (w : Nat) (bv : NanoBV) (offset : Nat) : Option NanoBV :=
  if offset ≥ bv.length then none
  else if offset ≥ w then none
  else new w (bv.data &&& (((1 <<< w) - 1) ^^^ (1 <<< offset))) bv.length

/-- Rust `NanoBV::assign_bit(value, offset)`: panics (here: `none`) when
`offset >= self.len()`, then dispatches on `value`: `0 => clear_bit`,
`_ => set_bit`. -/
def assign_bit (w : Nat) (bv : NanoBV) (v offset : Nat) : Option NanoBV :=
  if offset ≥ bv.length then none
  else match v with
    | 0 => clear_bit w bv offset
    | _ + 1 => set_bit w bv offset

/-- Semantics of the Rust intrinsic `T::reverse_bits` on a `w`-bit word: bit
`i` of the result is bit `w - 1 - i` of the argument. -/
def reverse_bits : Nat → Nat → Nat
  | 0, _ => 0
  | w + 1, n => ((n &&& 1) <<< w) ||| reverse_bits w (n >>> 1)

/-- Rust `NanoBV::reverse()`: `self.data.reverse_bits() >> (BIT_SIZE -
self.len())`, rebuilt via `new` at the same length.  The shift amount
`w - length` is below `w` for every constructible vector (`length >= 1`), so
the checked shift cannot panic there. -/
def reverse (w : Nat) (bv : NanoBV) : Option NanoBV :=
  new w ((reverse_bits w bv.data) >>> (w - bv.length)) bv.length

/-- Checked `T` addition (`self.data + rhs.data` in `bvadd`, `.add` in the
`Add` impl): panics (here: `none`) when the sum overflows the backing type. -/
def rsAdd (w a b : Nat) : Option Nat :=
  if a + b < 2 ^ w then some (a + b) else none

/-- Checked `T` subtraction: panics (here: `none`) on underflow. -/
def rsSub (a b : Nat) : Option Nat :=
  if b ≤ a then some (a - b) else none

/-- Checked `T` multiplication: panics (here: `none`) on overflow. -/
def rsMul (w a b : Nat) : Option Nat :=
  if a * b < 2 ^ w then some (a * b) else none

/-- Checked `T` division: panics (here: `none`) on a zero divisor — in Rust
this panic is unconditional in every build mode. -/
def rsDiv (a b : Nat) : Option Nat :=
  if b = 0 then none else some (a / b)

/-- Checked `T` remainder: panics (here: `none`) on a zero divisor — in Rust
this panic is unconditional in every build mode. -/
def rsRem (a b : Nat) : Option Nat :=
  if b = 0 then none else some (a % b)

/-- `T` bitwise and: never panics. -/
def rsAnd (a b : Nat) : Option Nat :=
  some (a &&& b)

/-- `T` bitwise or: never panics. -/
def rsOr (a b : Nat) : Option Nat :=
  some (a ||| b)

/-- `T` bitwise xor: never panics. -/
def rsXor (a b : Nat) : Option Nat :=
  some (a ^^^ b)

/-- Checked `T` shift-left: panics (here: `none`) when the amount reaches the
bit width; otherwise bits shifted out the top are discarded (`% 2 ^ w`). -/
def rsShl (w a b : Nat) : Option Nat :=
  if b < w then some ((a <<< b) % 2 ^ w) else none

/-- Checked `T` shift-right: panics (here: `none`) when the amount reaches
the bit width. -/
def rsShr (w a b : Nat) : Option Nat :=
  if b < w then some (a >>> b) else none

/-- Shape of the ten `const fn` operators generated by `ImplNanoBVCommon!`:
`NanoBV::new(self.data OP rhs.data, internals::min(self.len(), rhs.len()))`,
with `OP` the checked backing-type operation. -/
def nbvOp (w : Nat) (prim : Nat → Nat → Option Nat) (x y : NanoBV) : Option NanoBV :=
  (prim x.data y.data).bind fun raw => new w raw (internals.min x.length y.length)

/-- Rust `NanoBV::bvadd`. -/
def bvadd (w : Nat) : NanoBV → NanoBV → Option NanoBV :=
  nbvOp w (rsAdd w)

/-- Rust `NanoBV::bvand`. -/
def bvand (w : Nat) : NanoBV → NanoBV → Option NanoBV :=
  nbvOp w rsAnd

/-- Rust `NanoBV::bvor`. -/
def bvor (w : Nat) : NanoBV → NanoBV → Option NanoBV :=
  nbvOp w rsOr

/-- Rust `NanoBV::bvxor`. -/
def bvxor (w : Nat) : NanoBV → NanoBV → Option NanoBV :=
  nbvOp w rsXor

/-- Rust `NanoBV::bvdiv`. -/
def bvdiv (w : Nat) : NanoBV → NanoBV → Option NanoBV :=
  nbvOp w rsDiv

/-- Rust `NanoBV::bvmul`. -/
def bvmul (w : Nat) : NanoBV → NanoBV → Option NanoBV :=
  nbvOp w (rsMul w)

/-- Rust `NanoBV::bvrem`. -/
def bvrem (w : Nat) : NanoBV → NanoBV → Option NanoBV :=
  nbvOp w rsRem

/-- Rust `NanoBV::bvshl`. -/
def bvshl (w : Nat) : NanoBV → NanoBV → Option NanoBV :=
  nbvOp w (rsShl w)

/-- Rust `NanoBV::bvshr`. -/
def bvshr (w : Nat) : NanoBV → NanoBV → Option NanoBV :=
  nbvOp w (rsShr w)

/-- Rust `NanoBV::bvsub`. -/
def bvsub (w : Nat) : NanoBV → NanoBV → Option NanoBV :=
  nbvOp w rsSub

/-- Shape of the ten operator-trait impls generated by `ImplNanoBVOps!`:
`length = internals::min(self.len(), other.len())`, then
`data = T::try_from(self.data.op(other.data).try_into::<u128>()
.unwrap_or_default() & ((1u128 << length) - 1)).unwrap_or_default()`.
The raw operation runs in `T` (may panic); `T -> u128` never fails; the
`u128` shift panics for `length >= 128`; `u128 -> T` falls back to `0`
(`unwrap_or_default`) when the masked value exceeds `T::MAX`; finally
`NonZeroUsize::new(length).unwrap()` panics for `length == 0`. -/
def traitOp (w : Nat) (prim : Nat → Nat → Option Nat) (x y : NanoBV) : Option NanoBV :=
  (prim x.data y.data).bind fun raw =>
    if 128 ≤ internals.min x.length y.length then none
    else if internals.min x.length y.length = 0 then none
    else some
      { data :=
          if raw &&& ((1 <<< internals.min x.length y.length) - 1) < 2 ^ w
          then raw &&& ((1 <<< internals.min x.length y.length) - 1)
          else 0,
        length := internals.min x.length y.length }

/-- Rust `impl Add for NanoBV<T>`, `fn add`. -/
def add (w : Nat) : NanoBV → NanoBV → Option NanoBV :=
  traitOp w (rsAdd w)

/-- Rust `impl BitAnd for NanoBV<T>`, `fn bitand`. -/
def bitand (w : Nat) : NanoBV → NanoBV → Option NanoBV :=
  traitOp w rsAnd

/-- Rust `impl BitOr for NanoBV<T>`, `fn bitor`. -/
def bitor (w : Nat) : NanoBV → NanoBV → Option NanoBV :=
  traitOp w rsOr

/-- Rust `impl BitXor for NanoBV<T>`, `fn bitxor`. -/
def bitxor (w : Nat) : NanoBV → NanoBV → Option NanoBV :=
  traitOp w rsXor

/-- Rust `impl Div for NanoBV<T>`, `fn div`. -/
def div (w : Nat) : NanoBV → NanoBV → Option NanoBV :=
  traitOp w rsDiv

/-- Rust `impl Mul for NanoBV<T>`, `fn mul`. -/
def mul (w : Nat) : NanoBV → NanoBV → Option NanoBV :=
  traitOp w (rsMul w)

/-- Rust `impl Rem for NanoBV<T>`, `fn rem`. -/
def rem (w : Nat) : NanoBV → NanoBV → Option NanoBV :=
  traitOp w rsRem

/-- Rust `impl Shl for NanoBV<T>`, `fn shl`. -/
def shl (w : Nat) : NanoBV → NanoBV → Option NanoBV :=
  traitOp w (rsShl w)

/-- Rust `impl Shr for NanoBV<T>`, `fn shr`. -/
def shr (w : Nat) : NanoBV → NanoBV → Option NanoBV :=
  traitOp w (rsShr w)

/-- Rust `impl Sub for NanoBV<T>`, `fn sub`. -/
def sub (w : Nat) : NanoBV → NanoBV → Option NanoBV :=
  traitOp w rsSub

/-- The crate's representation invariant for backing width `w`: the length is
in `[1, w]` and `data & upper_bound(length) == data`. -/
def Valid (w : Nat) (bv : NanoBV) : Prop :=
  1 ≤ bv.length ∧ bv.length ≤ w ∧ bv.data &&& upper_bound w bv.length = bv.data

instance (w : Nat) (bv : NanoBV) : Decidable (Valid w bv) := by
  unfold Valid
  infer_instance

theorem upper_bound_eq_two_pow_sub_one {w n : Nat} (h : n ≤ w) :
    upper_bound w n = 2 ^ n - 1 := by
  unfold upper_bound
  rcases Nat.lt_or_ge n w with hlt | hge
  · simp [hlt, Nat.shiftLeft_eq]
  · have : n = w := Nat.le_antisymm h hge
    subst this
    simp [Nat.shiftLeft_eq]

theorem land_upper_bound_eq_mod {w n : Nat} (h : n ≤ w) (a : Nat) :
    a &&& upper_bound w n = a % 2 ^ n := by
  rw [upper_bound_eq_two_pow_sub_one h, Nat.and_pow_two_sub_one_eq_mod]

theorem new_eq {w l : Nat} (d : Nat) (h1 : 1 ≤ l) (h2 : l ≤ w) :
    new w d l = some { data := d % 2 ^ l, length := l } := by
  unfold new
  rw [land_upper_bound_eq_mod h2]
  simp [Nat.not_lt.mpr h1, Nat.not_lt.mpr h2]

theorem new_eq_none {w l : Nat} (d : Nat) (h : l < 1 ∨ l > w) :
    new w d l = none := by
  unfold new
  simp only [if_pos h]

theorem new_valid {w d l : Nat} {bv : NanoBV} (h : new w d l = some bv) :
    Valid w bv := by
  unfold new at h
  by_cases hc : l < 1 ∨ l > w
  · rw [if_pos hc] at h
    exact Option.noConfusion h
  · rw [if_neg hc] at h
    push_neg at hc
    obtain ⟨h1, h2⟩ := hc
    cases h
    refine ⟨h1, h2, ?_⟩
    simp only
    rw [land_upper_bound_eq_mod h2, land_upper_bound_eq_mod h2]
    exact Nat.mod_mod_of_dvd d dvd_rfl

theorem valid_iff {w : Nat} {bv : NanoBV} :
    Valid w bv ↔ 1 ≤ bv.length ∧ bv.length ≤ w ∧ bv.data < 2 ^ bv.length := by
  unfold Valid
  refine and_congr_right fun _ => and_congr_right fun h2 => ?_
  rw [land_upper_bound_eq_mod h2]
  constructor
  · intro h
    rw [← h]
    exact Nat.mod_lt _ (Nat.pos_pow_of_pos _ (by omega))
  · exact Nat.mod_eq_of_lt

theorem internalsMin_eq (a b : Nat) : internals.min a b = min a b := by
  unfold internals.min
  split <;> omega

/-- The backing widths the crate instantiates: `u8`, `u16`, `u32`, `u64`. -/
def IsWidth (w : Nat) : Prop :=
  w = 8 ∨ w = 16 ∨ w = 32 ∨ w = 64

instance (w : Nat) : Decidable (IsWidth w) := by
  unfold IsWidth
  infer_instance

theorem IsWidth.one_le {w : Nat} (h : IsWidth w) : 1 ≤ w := by
  rcases h with h | h | h | h <;> omega

theorem IsWidth.lt_128 {w : Nat} (h : IsWidth w) : w < 128 := by
  rcases h with h | h | h | h <;> omega

theorem nbvOp_eq {w : Nat} (prim : Nat → Nat → Option Nat) {x y : NanoBV}
    (hx1 : 1 ≤ x.length) (hx2 : x.length ≤ w) (hy1 : 1 ≤ y.length)
    (hy2 : y.length ≤ w) :
    nbvOp w prim x y = (prim x.data y.data).map fun raw =>
      { data := raw % 2 ^ min x.length y.length, length := min x.length y.length } := by
  unfold nbvOp
  cases prim x.data y.data with
  | none => rfl
  | some raw =>
    rw [Option.some_bind, Option.map_some']
    simp only [internalsMin_eq]
    exact new_eq raw (le_min hx1 hy1) (le_trans (min_le_left _ _) hx2)

theorem traitOp_eq {w : Nat} (prim : Nat → Nat → Option Nat) {x y : NanoBV}
    (hw : w < 128) (hx1 : 1 ≤ x.length) (hx2 : x.length ≤ w) (hy1 : 1 ≤ y.length)
    (hy2 : y.length ≤ w) :
    traitOp w prim x y = (prim x.data y.data).map fun raw =>
      { data := raw % 2 ^ min x.length y.length, length := min x.length y.length } := by
  unfold traitOp
  cases prim x.data y.data with
  | none => rfl
  | some raw =>
    rw [Option.some_bind, Option.map_some']
    simp only [internalsMin_eq]
    have hm1 : 1 ≤ min x.length y.length := le_min hx1 hy1
    have hm2 : min x.length y.length ≤ w := le_trans (min_le_left _ _) hx2
    have hmask : raw &&& ((1 <<< min x.length y.length) - 1) =
        raw % 2 ^ min x.length y.length := by
      rw [Nat.one_shiftLeft, Nat.and_pow_two_sub_one_eq_mod]
    have hlt : raw % 2 ^ min x.length y.length < 2 ^ w :=
      lt_of_lt_of_le (Nat.mod_lt _ (Nat.pos_pow_of_pos _ (by omega)))
        (Nat.pow_le_pow_right (by omega) hm2)
    rw [if_neg (by omega), if_neg (by omega), hmask, if_pos hlt]

theorem reverse_bits_lt (w n : Nat) : reverse_bits w n < 2 ^ w := by
  induction w generalizing n with
  | zero => simp [reverse_bits]
  | succ w ih =>
    unfold reverse_bits
    apply Nat.or_lt_two_pow
    · have h1 : n &&& 1 ≤ 1 := by
        rw [Nat.and_one_is_mod]
        omega
      have hp : 0 < 2 ^ w := Nat.pos_pow_of_pos _ (by omega)
      rw [Nat.shiftLeft_eq]
      calc (n &&& 1) * 2 ^ w ≤ 1 * 2 ^ w := Nat.mul_le_mul_right _ h1
        _ < 2 ^ (w + 1) := by
            rw [one_mul, pow_succ]
            omega
    · calc reverse_bits w (n >>> 1) < 2 ^ w := ih _
        _ < 2 ^ (w + 1) := by
            have hp : 0 < 2 ^ w := Nat.pos_pow_of_pos _ (by omega)
            rw [pow_succ]
            omega

theorem testBit_reverse_bits (w n j : Nat) :
    (reverse_bits w n).testBit j = (decide (j < w) && n.testBit (w - 1 - j)) := by
  induction w generalizing n j with
  | zero => simp [reverse_bits]
  | succ w ih =>
    unfold reverse_bits
    rw [Nat.testBit_or, Nat.testBit_shiftLeft, ih]
    rcases Nat.lt_trichotomy j w with hj | hj | hj
    · have h1 : ¬ (w ≤ j) := by omega
      simp only [decide_eq_false h1, Bool.false_and, Bool.false_or,
        decide_eq_true (show j < w by omega), Bool.true_and,
        decide_eq_true (show j < w + 1 by omega)]
      rw [Nat.testBit_shiftRight]
      congr 1
      omega
    · subst hj
      have e1 : j - j = 0 := Nat.sub_self j
      have e2 : j + 1 - 1 - j = 0 := by omega
      rw [e1, e2]
      simp only [decide_eq_true (show j ≥ j from le_refl j), Bool.true_and,
        decide_eq_false (show ¬ (j < j) by omega), Bool.false_and, Bool.or_false,
        decide_eq_true (show j < j + 1 by omega)]
      rw [Nat.and_one_is_mod, Nat.testBit_zero, Nat.testBit_zero,
        Nat.mod_mod_of_dvd n dvd_rfl]
    · have h1 : n &&& 1 < 2 ^ (j - w) := by
        rw [Nat.and_one_is_mod]
        calc n % 2 < 2 := Nat.mod_lt _ (by omega)
          _ ≤ 2 ^ (j - w) := by
            have : 1 ≤ j - w := by omega
            calc (2 : Nat) = 2 ^ 1 := by ring
              _ ≤ 2 ^ (j - w) := Nat.pow_le_pow_right (by omega) this
      rw [Nat.testBit_lt_two_pow h1]
      simp only [Bool.and_false, Bool.false_or,
        decide_eq_false (show ¬ (j < w) by omega), Bool.false_and,
        decide_eq_false (show ¬ (j < w + 1) by omega)]

theorem default_valid {w : Nat} {bv : NanoBV} (h : default w = some bv) :
    Valid w bv :=
  new_valid h

theorem zeros_valid {w l : Nat} {bv : NanoBV} (h : zeros w l = some bv) :
    Valid w bv := by
  unfold zeros at h
  split at h
  · exact Option.noConfusion h
  · exact new_valid h

theorem ones_valid {w l : Nat} {bv : NanoBV} (h : ones w l = some bv) :
    Valid w bv := by
  unfold ones at h
  split at h
  · exact Option.noConfusion h
  · exact new_valid h

theorem set_value_valid {w : Nat} {x : NanoBV} {v : Nat} {bv : NanoBV}
    (h : set_value w x v = some bv) : Valid w bv :=
  new_valid h

theorem clear_valid {w : Nat} {x bv : NanoBV} (h : clear w x = some bv) :
    Valid w bv :=
  zeros_valid h

theorem set_valid {w : Nat} {x bv : NanoBV} (h : set w x = some bv) :
    Valid w bv :=
  ones_valid h

theorem set_bit_valid {w : Nat} {x : NanoBV} {o : Nat} {bv : NanoBV}
    (h : set_bit w x o = some bv) : Valid w bv := by
  unfold set_bit at h
  split at h
  · exact Option.noConfusion h
  · split at h
    · exact Option.noConfusion h
    · exact new_valid h

theorem clear_bit_valid {w : Nat} {x : NanoBV} {o : Nat} {bv : NanoBV}
    (h : clear_bit w x o = some bv) : Valid w bv := by
  unfold clear_bit at h
  split at h
  · exact Option.noConfusion h
  · split at h
    · exact Option.noConfusion h
    · exact new_valid h

theorem assign_bit_valid {w : Nat} {x : NanoBV} {v o : Nat} {bv : NanoBV}
    (h : assign_bit w x v o = some bv) : Valid w bv := by
  unfold assign_bit at h
  split at h
  · exact Option.noConfusion h
  · cases v with
    | zero => exact clear_bit_valid h
    | succ n => exact set_bit_valid h

theorem reverse_valid {w : Nat} {x bv : NanoBV} (h : reverse w x = some bv) :
    Valid w bv :=
  new_valid h

theorem nbvOp_valid {w : Nat} {prim : Nat → Nat → Option Nat} {x y bv : NanoBV}
    (h : nbvOp w prim x y = some bv) : Valid w bv := by
  unfold nbvOp at h
  cases hp : prim x.data y.data with
  | none =>
    rw [hp] at h
    exact Option.noConfusion h
  | some raw =>
    rw [hp, Option.some_bind] at h
    exact new_valid h

theorem traitOp_valid {w : Nat} {prim : Nat → Nat → Option Nat} {x y bv : NanoBV}
    (hxy : x.length ≤ w ∨ y.length ≤ w) (h : traitOp w prim x y = some bv) :
    Valid w bv := by
  unfold traitOp at h
  cases hp : prim x.data y.data with
  | none =>
    rw [hp] at h
    exact Option.noConfusion h
  | some raw =>
    rw [hp, Option.some_bind] at h
    simp only [internalsMin_eq] at h
    split at h
    · exact Option.noConfusion h
    · rename_i hc1
      split at h
      · exact Option.noConfusion h
      · rename_i hc2
        cases h
        have hmlen : 1 ≤ min x.length y.length := by omega
        have hmw : min x.length y.length ≤ w := by
          rcases hxy with hx | hy
          · exact le_trans (min_le_left _ _) hx
          · exact le_trans (min_le_right _ _) hy
        have hdata : (if raw &&& ((1 <<< min x.length y.length) - 1) < 2 ^ w
            then raw &&& ((1 <<< min x.length y.length) - 1) else 0) <
            2 ^ min x.length y.length := by
          split
          · rw [Nat.one_shiftLeft, Nat.and_pow_two_sub_one_eq_mod]
            exact Nat.mod_lt _ (Nat.pos_pow_of_pos _ (by omega))
          · exact Nat.pos_pow_of_pos _ (by omega)
        exact valid_iff.mpr ⟨hmlen, hmw, hdata⟩

theorem valid_testBit_high {w : Nat} {bv : NanoBV} (h : Valid w bv) :
    ∀ i, bv.length ≤ i → bv.data.testBit i = false := by
  intro i hi
  obtain ⟨_, _, hd⟩ := valid_iff.mp h
  exact Nat.testBit_lt_two_pow
    (lt_of_lt_of_le hd (Nat.pow_le_pow_right (by omega) hi))

/-- C1: every value reachable through the public constructors and operations
(`new`, `default`, `zeros`, `ones`, `set_value`, `set_bit`, `clear_bit`,
`assign_bit`, `clear`, `set`, `reverse`, the ten `bv*` operators — any
`nbvOp` instance — and the ten operator-trait impls — any `traitOp`
instance) satisfies the masking invariant
`data & upper_bound(length) == data` (the `Valid` predicate); equivalently,
every bit of `value()` at a position at or above `length` is zero. -/
theorem claim_C1_masking_invariant (w : Nat) :
    (∀ d l bv, new w d l = some bv → Valid w bv) ∧
    (∀ bv, default w = some bv → Valid w bv) ∧
    (∀ l bv, zeros w l = some bv → Valid w bv) ∧
    (∀ l bv, ones w l = some bv → Valid w bv) ∧
    (∀ x v bv, set_value w x v = some bv → Valid w bv) ∧
    (∀ x o bv, set_bit w x o = some bv → Valid w bv) ∧
    (∀ x o bv, clear_bit w x o = some bv → Valid w bv) ∧
    (∀ x v o bv, assign_bit w x v o = some bv → Valid w bv) ∧
    (∀ x bv, clear w x = some bv → Valid w bv) ∧
    (∀ x bv, set w x = some bv → Valid w bv) ∧
    (∀ x bv, reverse w x = some bv → Valid w bv) ∧
    (∀ prim x y bv, nbvOp w prim x y = some bv → Valid w bv) ∧
    (∀ prim x y bv, Valid w x → Valid w y → traitOp w prim x y = some bv →
      Valid w bv) ∧
    (∀ bv, Valid w bv → ∀ i, bv.length ≤ i → (value bv).testBit i = false) := by
  refine ⟨?_, ?_, ?_, ?_, ?_, ?_, ?_, ?_, ?_, ?_, ?_, ?_, ?_, ?_⟩
  · intro d l bv h
    exact new_valid h
  · intro bv h
    exact default_valid h
  · intro l bv h
    exact zeros_valid h
  · intro l bv h
    exact ones_valid h
  · intro x v bv h
    exact set_value_valid h
  · intro x o bv h
    exact set_bit_valid h
  · intro x o bv h
    exact clear_bit_valid h
  · intro x v o bv h
    exact assign_bit_valid h
  · intro x bv h
    exact clear_valid h
  · intro x bv h
    exact set_valid h
  · intro x bv h
    exact reverse_valid h
  · intro prim x y bv h
    exact nbvOp_valid h
  · intro prim x y bv hx hy h
    exact traitOp_valid (Or.inl hx.2.1) h
  · intro bv h i hi
    exact valid_testBit_high h i hi

/-- Witness for C1 at `w = 8`: the `bvand` (an `nbvOp` instance) of the
vectors `0xFF` of length 8 and `0x0F` of length 4 is `0x0F` of length 4 and
satisfies the invariant. -/
theorem claim_C1_masking_invariant_witness :
    Valid 8 { data := 15, length := 4 } :=
  (claim_C1_masking_invariant 8).2.2.2.2.2.2.2.2.2.2.2.1 rsAnd
    { data := 255, length := 8 } { data := 15, length := 4 }
    { data := 15, length := 4 } (by decide)

theorem rsAdd_some {w a b r : Nat} (h : rsAdd w a b = some r) : r = a + b := by
  unfold rsAdd at h
  split at h
  · cases h
    rfl
  · exact Option.noConfusion h

theorem rsSub_some {a b r : Nat} (h : rsSub a b = some r) : r = a - b := by
  unfold rsSub at h
  split at h
  · cases h
    rfl
  · exact Option.noConfusion h

theorem rsMul_some {w a b r : Nat} (h : rsMul w a b = some r) : r = a * b := by
  unfold rsMul at h
  split at h
  · cases h
    rfl
  · exact Option.noConfusion h

theorem rsDiv_some {a b r : Nat} (h : rsDiv a b = some r) : r = a / b := by
  unfold rsDiv at h
  split at h
  · exact Option.noConfusion h
  · cases h
    rfl

theorem rsRem_some {a b r : Nat} (h : rsRem a b = some r) : r = a % b := by
  unfold rsRem at h
  split at h
  · exact Option.noConfusion h
  · cases h
    rfl

theorem rsAnd_some {a b r : Nat} (h : rsAnd a b = some r) : r = a &&& b := by
  cases h
  rfl

theorem rsOr_some {a b r : Nat} (h : rsOr a b = some r) : r = a ||| b := by
  cases h
  rfl

theorem rsXor_some {a b r : Nat} (h : rsXor a b = some r) : r = a ^^^ b := by
  cases h
  rfl

theorem rsShl_some {w a b r : Nat} (h : rsShl w a b = some r) :
    r = (a <<< b) % 2 ^ w := by
  unfold rsShl at h
  split at h
  · cases h
    rfl
  · exact Option.noConfusion h

theorem rsShr_some {w a b r : Nat} (h : rsShr w a b = some r) : r = a >>> b := by
  unfold rsShr at h
  split at h
  · cases h
    rfl
  · exact Option.noConfusion h

theorem nbvOp_char {w : Nat} {prim : Nat → Nat → Option Nat} {f : Nat → Nat → Nat}
    (hprim : ∀ a b r, prim a b = some r → ∀ m, m ≤ w → r % 2 ^ m = f a b % 2 ^ m)
    {x y bv : NanoBV} (hx : Valid w x) (hy : Valid w y)
    (h : nbvOp w prim x y = some bv) :
    bv.length = min x.length y.length ∧
    bv.data = f x.data y.data % 2 ^ min x.length y.length := by
  rw [nbvOp_eq prim hx.1 hx.2.1 hy.1 hy.2.1] at h
  cases hp : prim x.data y.data with
  | none =>
    rw [hp] at h
    exact Option.noConfusion h
  | some raw =>
    rw [hp, Option.map_some'] at h
    cases h
    have hm : min x.length y.length ≤ w := le_trans (min_le_left _ _) hx.2.1
    have hr := hprim _ _ _ hp (min x.length y.length) hm
    exact ⟨rfl, hr⟩

theorem traitOp_char {w : Nat} {prim : Nat → Nat → Option Nat} {f : Nat → Nat → Nat}
    (hw : w < 128)
    (hprim : ∀ a b r, prim a b = some r → ∀ m, m ≤ w → r % 2 ^ m = f a b % 2 ^ m)
    {x y bv : NanoBV} (hx : Valid w x) (hy : Valid w y)
    (h : traitOp w prim x y = some bv) :
    bv.length = min x.length y.length ∧
    bv.data = f x.data y.data % 2 ^ min x.length y.length := by
  rw [traitOp_eq prim hw hx.1 hx.2.1 hy.1 hy.2.1] at h
  cases hp : prim x.data y.data with
  | none =>
    rw [hp] at h
    exact Option.noConfusion h
  | some raw =>
    rw [hp, Option.map_some'] at h
    cases h
    have hm : min x.length y.length ≤ w := le_trans (min_le_left _ _) hx.2.1
    have hr := hprim _ _ _ hp (min x.length y.length) hm
    exact ⟨rfl, hr⟩

/-- C2: every binary operator — the ten `const fn` forms `bvadd` … `bvsub`
and the ten operator-trait impls `add` … `sub` — applied to two vectors of
the same backing width and any lengths produces, whenever it returns, a
vector whose length is `min(lhs.length, rhs.length)` and whose data is the
raw result of the operation on `lhs.data` and `rhs.data` masked down to that
minimum length; in particular, for `a` of length 8 and value `0xFF` and `b`
of length 4 and value `0x0F`, `(a & b).len() == 4` and
`(a & b).value() == 0x0F`. -/
theorem claim_C2_length_reconciliation {w : Nat} (hw : IsWidth w) :
    (∀ x y bv, Valid w x → Valid w y → bvadd w x y = some bv →
      bv.length = min x.length y.length ∧
      bv.data = (x.data + y.data) % 2 ^ min x.length y.length) ∧
    (∀ x y bv, Valid w x → Valid w y → bvsub w x y = some bv →
      bv.length = min x.length y.length ∧
      bv.data = (x.data - y.data) % 2 ^ min x.length y.length) ∧
    (∀ x y bv, Valid w x → Valid w y → bvmul w x y = some bv →
      bv.length = min x.length y.length ∧
      bv.data = (x.data * y.data) % 2 ^ min x.length y.length) ∧
    (∀ x y bv, Valid w x → Valid w y → bvdiv w x y = some bv →
      bv.length = min x.length y.length ∧
      bv.data = (x.data / y.data) % 2 ^ min x.length y.length) ∧
    (∀ x y bv, Valid w x → Valid w y → bvrem w x y = some bv →
      bv.length = min x.length y.length ∧
      bv.data = (x.data % y.data) % 2 ^ min x.length y.length) ∧
    (∀ x y bv, Valid w x → Valid w y → bvand w x y = some bv →
      bv.length = min x.length y.length ∧
      bv.data = (x.data &&& y.data) % 2 ^ min x.length y.length) ∧
    (∀ x y bv, Valid w x → Valid w y → bvor w x y = some bv →
      bv.length = min x.length y.length ∧
      bv.data = (x.data ||| y.data) % 2 ^ min x.length y.length) ∧
    (∀ x y bv, Valid w x → Valid w y → bvxor w x y = some bv →
      bv.length = min x.length y.length ∧
      bv.data = (x.data ^^^ y.data) % 2 ^ min x.length y.length) ∧
    (∀ x y bv, Valid w x → Valid w y → bvshl w x y = some bv →
      bv.length = min x.length y.length ∧
      bv.data = (x.data <<< y.data) % 2 ^ min x.length y.length) ∧
    (∀ x y bv, Valid w x → Valid w y → bvshr w x y = some bv →
      bv.length = min x.length y.length ∧
      bv.data = (x.data >>> y.data) % 2 ^ min x.length y.length) ∧
    (∀ x y bv, Valid w x → Valid w y → add w x y = some bv →
      bv.length = min x.length y.length ∧
      bv.data = (x.data + y.data) % 2 ^ min x.length y.length) ∧
    (∀ x y bv, Valid w x → Valid w y → sub w x y = some bv →
      bv.length = min x.length y.length ∧
      bv.data = (x.data - y.data) % 2 ^ min x.length y.length) ∧
    (∀ x y bv, Valid w x → Valid w y → mul w x y = some bv →
      bv.length = min x.length y.length ∧
      bv.data = (x.data * y.data) % 2 ^ min x.length y.length) ∧
    (∀ x y bv, Valid w x → Valid w y → div w x y = some bv →
      bv.length = min x.length y.length ∧
      bv.data = (x.data / y.data) % 2 ^ min x.length y.length) ∧
    (∀ x y bv, Valid w x → Valid w y → rem w x y = some bv →
      bv.length = min x.length y.length ∧
      bv.data = (x.data % y.data) % 2 ^ min x.length y.length) ∧
    (∀ x y bv, Valid w x → Valid w y → bitand w x y = some bv →
      bv.length = min x.length y.length ∧
      bv.data = (x.data &&& y.data) % 2 ^ min x.length y.length) ∧
    (∀ x y bv, Valid w x → Valid w y → bitor w x y = some bv →
      bv.length = min x.length y.length ∧
      bv.data = (x.data ||| y.data) % 2 ^ min x.length y.length) ∧
    (∀ x y bv, Valid w x → Valid w y → bitxor w x y = some bv →
      bv.length = min x.length y.length ∧
      bv.data = (x.data ^^^ y.data) % 2 ^ min x.length y.length) ∧
    (∀ x y bv, Valid w x → Valid w y → shl w x y = some bv →
      bv.length = min x.length y.length ∧
      bv.data = (x.data <<< y.data) % 2 ^ min x.length y.length) ∧
    (∀ x y bv, Valid w x → Valid w y → shr w x y = some bv →
      bv.length = min x.length y.length ∧
      bv.data = (x.data >>> y.data) % 2 ^ min x.length y.length) ∧
    ((bitand 8 { data := 255, length := 8 } { data := 15, length := 4 }).map
        NanoBV.len = some 4 ∧
      (bitand 8 { data := 255, length := 8 } { data := 15, length := 4 }).map
        value = some 15) := by
  have h128 := hw.lt_128
  have hAdd : ∀ a b r, rsAdd w a b = some r → ∀ m, m ≤ w →
      r % 2 ^ m = (a + b) % 2 ^ m := by
    intro a b r hr m hm
    rw [rsAdd_some hr]
  have hSub : ∀ a b r, rsSub a b = some r → ∀ m, m ≤ w →
      r % 2 ^ m = (a - b) % 2 ^ m := by
    intro a b r hr m hm
    rw [rsSub_some hr]
  have hMul : ∀ a b r, rsMul w a b = some r → ∀ m, m ≤ w →
      r % 2 ^ m = (a * b) % 2 ^ m := by
    intro a b r hr m hm
    rw [rsMul_some hr]
  have hDiv : ∀ a b r, rsDiv a b = some r → ∀ m, m ≤ w →
      r % 2 ^ m = (a / b) % 2 ^ m := by
    intro a b r hr m hm
    rw [rsDiv_some hr]
  have hRem : ∀ a b r, rsRem a b = some r → ∀ m, m ≤ w →
      r % 2 ^ m = (a % b) % 2 ^ m := by
    intro a b r hr m hm
    rw [rsRem_some hr]
  have hAnd : ∀ a b r, rsAnd a b = some r → ∀ m, m ≤ w →
      r % 2 ^ m = (a &&& b) % 2 ^ m := by
    intro a b r hr m hm
    rw [rsAnd_some hr]
  have hOr : ∀ a b r, rsOr a b = some r → ∀ m, m ≤ w →
      r % 2 ^ m = (a ||| b) % 2 ^ m := by
    intro a b r hr m hm
    rw [rsOr_some hr]
  have hXor : ∀ a b r, rsXor a b = some r → ∀ m, m ≤ w →
      r % 2 ^ m = (a ^^^ b) % 2 ^ m := by
    intro a b r hr m hm
    rw [rsXor_some hr]
  have hShl : ∀ a b r, rsShl w a b = some r → ∀ m, m ≤ w →
      r % 2 ^ m = (a <<< b) % 2 ^ m := by
    intro a b r hr m hm
    rw [rsShl_some hr]
    exact Nat.mod_mod_of_dvd _ (pow_dvd_pow 2 hm)
  have hShr : ∀ a b r, rsShr w a b = some r → ∀ m, m ≤ w →
      r % 2 ^ m = (a >>> b) % 2 ^ m := by
    intro a b r hr m hm
    rw [rsShr_some hr]
  refine ⟨?_, ?_, ?_, ?_, ?_, ?_, ?_, ?_, ?_, ?_, ?_, ?_, ?_, ?_, ?_, ?_,
    ?_, ?_, ?_, ?_, by decide⟩
  · exact fun x y bv hx hy h => nbvOp_char hAdd hx hy h
  · exact fun x y bv hx hy h => nbvOp_char hSub hx hy h
  · exact fun x y bv hx hy h => nbvOp_char hMul hx hy h
  · exact fun x y bv hx hy h => nbvOp_char hDiv hx hy h
  · exact fun x y bv hx hy h => nbvOp_char hRem hx hy h
  · exact fun x y bv hx hy h => nbvOp_char hAnd hx hy h
  · exact fun x y bv hx hy h => nbvOp_char hOr hx hy h
  · exact fun x y bv hx hy h => nbvOp_char hXor hx hy h
  · exact fun x y bv hx hy h => nbvOp_char hShl hx hy h
  · exact fun x y bv hx hy h => nbvOp_char hShr hx hy h
  · exact fun x y bv hx hy h => traitOp_char h128 hAdd hx hy h
  · exact fun x y bv hx hy h => traitOp_char h128 hSub hx hy h
  · exact fun x y bv hx hy h => traitOp_char h128 hMul hx hy h
  · exact fun x y bv hx hy h => traitOp_char h128 hDiv hx hy h
  · exact fun x y bv hx hy h => traitOp_char h128 hRem hx hy h
  · exact fun x y bv hx hy h => traitOp_char h128 hAnd hx hy h
  · exact fun x y bv hx hy h => traitOp_char h128 hOr hx hy h
  · exact fun x y bv hx hy h => traitOp_char h128 hXor hx hy h
  · exact fun x y bv hx hy h => traitOp_char h128 hShl hx hy h
  · exact fun x y bv hx hy h => traitOp_char h128 hShr hx hy h

/-- Witness for C2 at `w = 8`: `bvadd` of `3` (length 8) and `5` (length 4)
returns the vector `(3 + 5) % 2 ^ 4 = 8` of length `4 = min 8 4`. -/
theorem claim_C2_length_reconciliation_witness :
    ({ data := 8, length := 4 } : NanoBV).length =
      min (8 : Nat) 4 ∧
    ({ data := 8, length := 4 } : NanoBV).data = (3 + 5) % 2 ^ min 8 4 :=
  (claim_C2_length_reconciliation (w := 8) (by decide)).1
    { data := 3, length := 8 } { data := 5, length := 4 }
    { data := 8, length := 4 } (by decide) (by decide) (by decide)

/-- Modelled from the spec (section 4.4, for comparison only — this is NOT
what the code does): the widen-compute-mask-narrow pipeline, where the raw
operation `f` is evaluated in an intermediate wide enough that it cannot
overflow (here: unbounded `Nat`), then masked to
`min(lhs.length, rhs.length)` bits and narrowed back. -/
def specWidePipeline (w : Nat) (f : Nat → Nat → Nat) (x y : NanoBV) : NanoBV :=
  { data := f x.data y.data % 2 ^ min x.length y.length,
    length := min x.length y.length }

theorem nbvOp_none_iff {w : Nat} (prim : Nat → Nat → Option Nat)
    {x y : NanoBV} (hx : Valid w x) (hy : Valid w y) :
    nbvOp w prim x y = none ↔ prim x.data y.data = none := by
  rw [nbvOp_eq prim hx.1 hx.2.1 hy.1 hy.2.1]
  cases prim x.data y.data <;> simp

theorem traitOp_none_iff {w : Nat} (prim : Nat → Nat → Option Nat)
    (hw : w < 128) {x y : NanoBV} (hx : Valid w x) (hy : Valid w y) :
    traitOp w prim x y = none ↔ prim x.data y.data = none := by
  rw [traitOp_eq prim hw hx.1 hx.2.1 hy.1 hy.2.1]
  cases prim x.data y.data <;> simp

theorem rsAdd_none_iff {w a b : Nat} : rsAdd w a b = none ↔ 2 ^ w ≤ a + b := by
  unfold rsAdd
  split <;> rename_i hc <;> simp <;> omega

theorem rsMul_none_iff {w a b : Nat} : rsMul w a b = none ↔ 2 ^ w ≤ a * b := by
  unfold rsMul
  split <;> rename_i hc <;> simp <;> omega

/-- C3, counterexample: the claim says the raw arithmetic is computed in an
intermediate of width at least 128 bits, so that adding two vectors whose raw
result exceeds the backing range does not fault or wrap before masking.  On
the 8-bit backing type, adding the full-width vector `0xFF` to itself (raw
result `0x1FE`, above `u8::MAX`) faults in both the `const fn` operator
`bvadd` and the `Add` trait impl, while the spec's wide pipeline would have
returned `0x1FE % 2^8 = 0xFE` of length 8. -/
theorem claim_C3_wide_intermediate_counterexample :
    bvadd 8 { data := 255, length := 8 } { data := 255, length := 8 } = none ∧
    add 8 { data := 255, length := 8 } { data := 255, length := 8 } = none ∧
    specWidePipeline 8 (fun p q => p + q)
      { data := 255, length := 8 } { data := 255, length := 8 } =
      { data := 254, length := 8 } := by
  decide

/-- C3, amended: the raw result of a binary operation is computed directly in
the backing type `T`, not in a 128-bit intermediate; the promotion to `u128`
happens only afterwards, for the masking step of the operator-trait impls.
Consequently `bvadd`/`add` (resp. `bvmul`/`mul`) fault exactly when the raw
sum (resp. product) of the operand data exceeds the backing type's range —
the overflow is not absorbed by a wide intermediate. -/
theorem claim_C3_backing_width_arithmetic {w : Nat} (hw : IsWidth w)
    {x y : NanoBV} (hx : Valid w x) (hy : Valid w y) :
    (bvadd w x y = none ↔ 2 ^ w ≤ x.data + y.data) ∧
    (add w x y = none ↔ 2 ^ w ≤ x.data + y.data) ∧
    (bvmul w x y = none ↔ 2 ^ w ≤ x.data * y.data) ∧
    (mul w x y = none ↔ 2 ^ w ≤ x.data * y.data) := by
  refine ⟨?_, ?_, ?_, ?_⟩
  · rw [show bvadd w x y = nbvOp w (rsAdd w) x y from rfl,
      nbvOp_none_iff _ hx hy, rsAdd_none_iff]
  · rw [show add w x y = traitOp w (rsAdd w) x y from rfl,
      traitOp_none_iff _ hw.lt_128 hx hy, rsAdd_none_iff]
  · rw [show bvmul w x y = nbvOp w (rsMul w) x y from rfl,
      nbvOp_none_iff _ hx hy, rsMul_none_iff]
  · rw [show mul w x y = traitOp w (rsMul w) x y from rfl,
      traitOp_none_iff _ hw.lt_128 hx hy, rsMul_none_iff]

/-- Witness for the amended C3 at `w = 8` with both operands the full-width
vector `0xFF`: both additions fault because `0x1FE` exceeds `u8`'s range. -/
theorem claim_C3_backing_width_arithmetic_witness :
    (bvadd 8 { data := 255, length := 8 } { data := 255, length := 8 } = none ↔
      2 ^ 8 ≤ 255 + 255) ∧
    (add 8 { data := 255, length := 8 } { data := 255, length := 8 } = none ↔
      2 ^ 8 ≤ 255 + 255) ∧
    (bvmul 8 { data := 255, length := 8 } { data := 255, length := 8 } = none ↔
      2 ^ 8 ≤ 255 * 255) ∧
    (mul 8 { data := 255, length := 8 } { data := 255, length := 8 } = none ↔
      2 ^ 8 ≤ 255 * 255) :=
  claim_C3_backing_width_arithmetic (w := 8) (by decide)
    (x := { data := 255, length := 8 }) (y := { data := 255, length := 8 })
    (by decide) (by decide)

/-- C4: for every `raw_value` and every length with
`1 <= length <= bit_width(T)`, `new(raw_value, length)` succeeds and returns
a vector with `value() == raw_value & upper_bound(length)` and
`len() == length`, the bits of `raw_value` at positions at or above `length`
being silently discarded; for `length == 0` or `length > bit_width(T)`,
`new`, `zeros` and `ones` all fail rather than silently clamping. -/
theorem claim_C4_new_construction (w d l : Nat) :
    (1 ≤ l → l ≤ w →
      new w d l = some { data := d &&& upper_bound w l, length := l } ∧
      (new w d l).map value = some (d &&& upper_bound w l) ∧
      (new w d l).map NanoBV.len = some l ∧
      (∀ i, l ≤ i → (d &&& upper_bound w l).testBit i = false)) ∧
    (l = 0 ∨ l > w →
      new w d l = none ∧ zeros w l = none ∧ ones w l = none) := by
  constructor
  · intro h1 h2
    have hnew : new w d l = some { data := d &&& upper_bound w l, length := l } := by
      unfold new
      rw [if_neg (by omega)]
    refine ⟨hnew, by rw [hnew]; rfl, by rw [hnew]; rfl, ?_⟩
    intro i hi
    rw [land_upper_bound_eq_mod h2, Nat.testBit_mod_two_pow]
    simp [Nat.not_lt.mpr hi]
  · intro h
    have hg : l < 1 ∨ l > w := by omega
    refine ⟨new_eq_none d hg, ?_, ?_⟩
    · unfold zeros
      rw [if_pos hg]
    · unfold ones
      rw [if_pos hg]

/-- Witness for C4 at `w = 8`: `new(0x1D, 7)` succeeds as the vector `0x1D`
of length 7, and `new(300, 0)` fails. -/
theorem claim_C4_new_construction_witness :
    new 8 29 7 = some { data := 29, length := 7 } ∧ new 8 300 0 = none :=
  ⟨((claim_C4_new_construction 8 29 7).1 (by decide) (by decide)).1,
    ((claim_C4_new_construction 8 300 0).2 (Or.inl rfl)).1⟩

/-- C5: for every constructible vector, `get_bit(offset)` with
`offset < length` returns the bit of `data` at position `offset` as 0 or 1,
and `get_bit`, `set_bit`, `clear_bit` and `assign_bit` with
`offset >= length` all fail rather than silently reading or writing a bit
beyond the logical length. -/
theorem claim_C5_bit_offset_contract {w : Nat} {b : NanoBV} (h : Valid w b)
    (offset : Nat) :
    (offset < b.length →
      get_bit w b offset = some ((b.data >>> offset) &&& 1) ∧
      (b.data >>> offset) &&& 1 = (if b.data.testBit offset then 1 else 0)) ∧
    (b.length ≤ offset →
      get_bit w b offset = none ∧ set_bit w b offset = none ∧
      clear_bit w b offset = none ∧ ∀ v, assign_bit w b v offset = none) := by
  obtain ⟨h1, h2, _⟩ := h
  constructor
  · intro ho
    have hw : ¬ (offset ≥ w) := by omega
    constructor
    · unfold get_bit
      rw [if_neg (by omega), if_neg hw]
    · rw [Nat.and_one_is_mod, Nat.shiftRight_eq_div_pow, Nat.testBit_to_div_mod]
      rcases Nat.mod_two_eq_zero_or_one (b.data / 2 ^ offset) with h0 | h0 <;>
        rw [h0] <;> simp
  · intro ho
    refine ⟨?_, ?_, ?_, ?_⟩
    · unfold get_bit
      rw [if_pos (by omega)]
    · unfold set_bit
      rw [if_pos (by omega)]
    · unfold clear_bit
      rw [if_pos (by omega)]
    · intro v
      unfold assign_bit
      rw [if_pos (by omega)]

/-- Witness for C5 at `w = 8` on the vector `0b101` of length 3: bit 2 reads
as 1, and access at offset 3 fails. -/
theorem claim_C5_bit_offset_contract_witness :
    get_bit 8 { data := 5, length := 3 } 2 = some 1 ∧
    get_bit 8 { data := 5, length := 3 } 3 = none :=
  ⟨((claim_C5_bit_offset_contract (w := 8) (b := { data := 5, length := 3 })
      (by decide) 2).1 (by decide)).1,
    ((claim_C5_bit_offset_contract (w := 8) (b := { data := 5, length := 3 })
      (by decide) 3).2 (by decide)).1⟩

/-- C6: division and remainder — both the `const fn` forms `bvdiv`/`bvrem`
and the trait impls `div`/`rem` — fail on a zero-valued right operand rather
than returning a silently-zero or silently-unchanged result; for a non-zero
divisor they return the masked quotient/remainder at the reconciled length
`min(lhs.length, rhs.length)`. -/
theorem claim_C6_division_fault {w : Nat} (hw : IsWidth w) {x y : NanoBV}
    (hx : Valid w x) (hy : Valid w y) :
    (value y = 0 →
      bvdiv w x y = none ∧ bvrem w x y = none ∧
      div w x y = none ∧ rem w x y = none) ∧
    (value y ≠ 0 →
      bvdiv w x y =
        some ⟨(x.data / y.data) % 2 ^ min x.length y.length, min x.length y.length⟩ ∧
      bvrem w x y =
        some ⟨(x.data % y.data) % 2 ^ min x.length y.length, min x.length y.length⟩ ∧
      div w x y =
        some ⟨(x.data / y.data) % 2 ^ min x.length y.length, min x.length y.length⟩ ∧
      rem w x y =
        some ⟨(x.data % y.data) % 2 ^ min x.length y.length, min x.length y.length⟩) := by
  constructor
  · intro h0
    have hz : y.data = 0 := h0
    refine ⟨?_, ?_, ?_, ?_⟩
    · rw [show bvdiv w x y = nbvOp w rsDiv x y from rfl,
        nbvOp_none_iff _ hx hy]
      unfold rsDiv
      rw [if_pos hz]
    · rw [show bvrem w x y = nbvOp w rsRem x y from rfl,
        nbvOp_none_iff _ hx hy]
      unfold rsRem
      rw [if_pos hz]
    · rw [show div w x y = traitOp w rsDiv x y from rfl,
        traitOp_none_iff _ hw.lt_128 hx hy]
      unfold rsDiv
      rw [if_pos hz]
    · rw [show rem w x y = traitOp w rsRem x y from rfl,
        traitOp_none_iff _ hw.lt_128 hx hy]
      unfold rsRem
      rw [if_pos hz]
  · intro h0
    have hz : ¬ (y.data = 0) := h0
    refine ⟨?_, ?_, ?_, ?_⟩
    · rw [show bvdiv w x y = nbvOp w rsDiv x y from rfl,
        nbvOp_eq rsDiv hx.1 hx.2.1 hy.1 hy.2.1]
      unfold rsDiv
      rw [if_neg hz, Option.map_some']
    · rw [show bvrem w x y = nbvOp w rsRem x y from rfl,
        nbvOp_eq rsRem hx.1 hx.2.1 hy.1 hy.2.1]
      unfold rsRem
      rw [if_neg hz, Option.map_some']
    · rw [show div w x y = traitOp w rsDiv x y from rfl,
        traitOp_eq rsDiv hw.lt_128 hx.1 hx.2.1 hy.1 hy.2.1]
      unfold rsDiv
      rw [if_neg hz, Option.map_some']
    · rw [show rem w x y = traitOp w rsRem x y from rfl,
        traitOp_eq rsRem hw.lt_128 hx.1 hx.2.1 hy.1 hy.2.1]
      unfold rsRem
      rw [if_neg hz, Option.map_some']

/-- Witness for C6 at `w = 8`: dividing `5` (length 3) by the zero-valued
vector of length 3 faults, and dividing it by `2` (length 3) yields the
masked quotient `2` at length 3. -/
theorem claim_C6_division_fault_witness :
    bvdiv 8 { data := 5, length := 3 } { data := 0, length := 3 } = none ∧
    bvdiv 8 { data := 5, length := 3 } { data := 2, length := 3 } =
      some ⟨(5 / 2) % 2 ^ min 3 3, min 3 3⟩ :=
  ⟨((claim_C6_division_fault (w := 8) (x := { data := 5, length := 3 })
      (y := { data := 0, length := 3 }) (by decide) (by decide) (by decide)).1
      rfl).1,
    ((claim_C6_division_fault (w := 8) (x := { data := 5, length := 3 })
      (y := { data := 2, length := 3 }) (by decide) (by decide) (by decide)).2
      (by decide)).1⟩

/-- C7: `reverse()` keeps the length and produces the data obtained by
reversing all bits of the backing integer, right-shifting by
`bit_width(T) - length` and re-masking — i.e. it reverses the order of
exactly the `length` significant bits; concretely, on the 8-bit backing type
`new(0x1D, 7).reverse() == new(0x5C, 7)` and on the 16-bit backing type
`new(0x071F, 13).reverse() == new(0x1F1C, 13)`. -/
theorem claim_C7_reverse_semantics (w : Nat) :
    (∀ b : NanoBV, Valid w b →
      ∃ r, reverse w b = some r ∧ r.length = b.length ∧
        r.data = ((reverse_bits w b.data) >>> (w - b.length)) &&&
          upper_bound w b.length ∧
        ∀ i, i < b.length → r.data.testBit i = b.data.testBit (b.length - 1 - i)) ∧
    (new 8 29 7).bind (reverse 8) = new 8 92 7 ∧
    (new 16 1823 13).bind (reverse 16) = new 16 7964 13 := by
  refine ⟨?_, by decide, by decide⟩
  intro b hb
  obtain ⟨h1, h2, _⟩ := hb
  refine ⟨⟨((reverse_bits w b.data) >>> (w - b.length)) % 2 ^ b.length, b.length⟩,
    new_eq _ h1 h2, rfl, (land_upper_bound_eq_mod h2 _).symm, ?_⟩
  intro i hi
  simp only [Nat.testBit_mod_two_pow, Nat.testBit_shiftRight, testBit_reverse_bits]
  rw [decide_eq_true hi, decide_eq_true (show w - b.length + i < w by omega)]
  simp only [Bool.true_and]
  congr 1
  omega

/-- Witness for C7 at `w = 8` on the vector `0x1D` of length 7: `reverse`
returns a vector of length 7 whose bits are those of `0x1D` in reverse
order. -/
theorem claim_C7_reverse_semantics_witness :
    ∃ r, reverse 8 { data := 29, length := 7 } = some r ∧
      r.length = ({ data := 29, length := 7 } : NanoBV).length ∧
      r.data = ((reverse_bits 8 29) >>> (8 - 7)) &&& upper_bound 8 7 ∧
      ∀ i, i < ({ data := 29, length := 7 } : NanoBV).length →
        r.data.testBit i = (29 : Nat).testBit (7 - 1 - i) :=
  (claim_C7_reverse_semantics 8).1 { data := 29, length := 7 } (by decide)

/-- C8: for every length in `[1, bit_width(T)]`, `zeros(length)` has value 0
and `ones(length)` has value `upper_bound(length)`, both of length `length`;
at the boundary `length == bit_width(T)`, `ones(length)` has the backing
type's maximum value `2 ^ w - 1`. -/
theorem claim_C8_zeros_ones (w l : Nat) (h1 : 1 ≤ l) (h2 : l ≤ w) :
    (zeros w l).map value = some 0 ∧
    (zeros w l).map NanoBV.len = some l ∧
    (ones w l).map value = some (upper_bound w l) ∧
    (ones w l).map NanoBV.len = some l ∧
    (l = w → (ones w l).map value = some (2 ^ w - 1)) := by
  have hz : zeros w l = some ⟨0, l⟩ := by
    unfold zeros
    rw [if_neg (by omega), new_eq 0 h1 h2]
    rw [Nat.zero_mod]
  have hp : 0 < 2 ^ l := Nat.pos_pow_of_pos _ (by omega)
  have ho : ones w l = some ⟨upper_bound w l, l⟩ := by
    unfold ones
    rw [if_neg (by omega), new_eq _ h1 h2, upper_bound_eq_two_pow_sub_one h2]
    rw [Nat.mod_eq_of_lt (by omega)]
  refine ⟨by rw [hz]; rfl, by rw [hz]; rfl, by rw [ho]; rfl, by rw [ho]; rfl, ?_⟩
  intro he
  subst he
  rw [ho, upper_bound_eq_two_pow_sub_one (le_refl l)]
  rfl

/-- Witness for C8 at the shift-overflow boundary `w = l = 8`: `ones(8)` on
the 8-bit backing type has value `upper_bound(8) = 0xFF = u8::MAX`. -/
theorem claim_C8_zeros_ones_witness :
    (ones 8 8).map value = some (upper_bound 8 8) ∧
    (ones 8 8).map value = some (2 ^ 8 - 1) :=
  ⟨(claim_C8_zeros_ones 8 8 (by decide) (by decide)).2.2.1,
    (claim_C8_zeros_ones 8 8 (by decide) (by decide)).2.2.2.2 rfl⟩

theorem set_bit_eq {w : Nat} {b : NanoBV} {o : Nat} (h : Valid w b)
    (ho : o < b.length) :
    set_bit w b o = some ⟨b.data ||| 2 ^ o, b.length⟩ := by
  have h1 := h.1
  have h2 := h.2.1
  have hd : b.data < 2 ^ b.length := (valid_iff.mp h).2.2
  unfold set_bit
  rw [if_neg (by omega), if_neg (by omega)]
  have hm : (1 <<< o) &&& upper_bound w b.length = 2 ^ o := by
    rw [Nat.one_shiftLeft, land_upper_bound_eq_mod h2]
    exact Nat.mod_eq_of_lt (Nat.pow_lt_pow_right (by omega) ho)
  have hlt : b.data ||| 2 ^ o < 2 ^ b.length :=
    Nat.or_lt_two_pow hd (Nat.pow_lt_pow_right (by omega) ho)
  rw [hm, new_eq _ h1 h2, Nat.mod_eq_of_lt hlt]

theorem clear_bit_eq {w : Nat} {b : NanoBV} {o : Nat} (h : Valid w b)
    (ho : o < b.length) :
    clear_bit w b o =
      some ⟨b.data &&& (((1 <<< w) - 1) ^^^ (1 <<< o)), b.length⟩ := by
  have h1 := h.1
  have h2 := h.2.1
  have hd : b.data < 2 ^ b.length := (valid_iff.mp h).2.2
  unfold clear_bit
  rw [if_neg (by omega), if_neg (by omega)]
  have hlt : b.data &&& (((1 <<< w) - 1) ^^^ (1 <<< o)) < 2 ^ b.length :=
    lt_of_le_of_lt Nat.and_le_left hd
  rw [new_eq _ h1 h2, Nat.mod_eq_of_lt hlt]

/-- C9: for every constructible vector and every in-range offset, `set_bit`
and `clear_bit` are idempotent, and both keep the length unchanged. -/
theorem claim_C9_idempotence (w : Nat) (b : NanoBV) (o : Nat) (h : Valid w b)
    (ho : o < b.length) :
    (set_bit w b o).bind (fun c => set_bit w c o) = set_bit w b o ∧
    (clear_bit w b o).bind (fun c => clear_bit w c o) = clear_bit w b o ∧
    (∀ c, set_bit w b o = some c → c.length = b.length) ∧
    (∀ c, clear_bit w b o = some c → c.length = b.length) := by
  have hs := set_bit_eq h ho
  have hc := clear_bit_eq h ho
  refine ⟨?_, ?_, ?_, ?_⟩
  · rw [hs, Option.some_bind, set_bit_eq (set_bit_valid hs) ho]
    rw [Nat.or_assoc, Nat.or_self]
  · rw [hc, Option.some_bind, clear_bit_eq (clear_bit_valid hc) ho]
    rw [Nat.and_assoc, Nat.and_self]
  · intro c hcs
    rw [hs] at hcs
    cases hcs
    rfl
  · intro c hcc
    rw [hc] at hcc
    cases hcc
    rfl

/-- Witness for C9 at `w = 8` on the vector `0b101` of length 3 at offset 1:
setting (resp. clearing) bit 1 twice equals doing it once, and the length is
unchanged. -/
theorem claim_C9_idempotence_witness :
    (set_bit 8 { data := 5, length := 3 } 1).bind (fun c => set_bit 8 c 1) =
      set_bit 8 { data := 5, length := 3 } 1 ∧
    (clear_bit 8 { data := 5, length := 3 } 1).bind (fun c => clear_bit 8 c 1) =
      clear_bit 8 { data := 5, length := 3 } 1 :=
  ⟨(claim_C9_idempotence 8 { data := 5, length := 3 } 1 (by decide) (by decide)).1,
    (claim_C9_idempotence 8 { data := 5, length := 3 } 1 (by decide)
      (by decide)).2.1⟩

/-- C10: zero-length vectors are unrepresentable — `new`, `zeros` and `ones`
all reject `length = 0`, every vector built by `new` (and every valid
vector, and every vector produced by an operator-trait impl) has
`len() >= 1`, and `is_empty()` returns `false` on all of them. -/
theorem claim_C10_nonzero_length (w : Nat) :
    (∀ d, new w d 0 = none) ∧ zeros w 0 = none ∧ ones w 0 = none ∧
    (∀ d l c, new w d l = some c →
      1 ≤ c.length ∧ 1 ≤ NanoBV.len c ∧ NanoBV.is_empty c = false) ∧
    (∀ c, Valid w c → 1 ≤ NanoBV.len c ∧ NanoBV.is_empty c = false) ∧
    (∀ prim x y c, traitOp w prim x y = some c →
      NanoBV.is_empty c = false) := by
  refine ⟨?_, ?_, ?_, ?_, ?_, ?_⟩
  · intro d
    exact new_eq_none d (Or.inl (by omega))
  · unfold zeros
    rw [if_pos (Or.inl (by omega))]
  · unfold ones
    rw [if_pos (Or.inl (by omega))]
  · intro d l c hcon
    have h1 := (new_valid hcon).1
    refine ⟨h1, h1, ?_⟩
    simp only [NanoBV.is_empty, beq_eq_false_iff_ne, ne_eq]
    omega
  · intro c hv
    refine ⟨hv.1, ?_⟩
    have h1 := hv.1
    simp only [NanoBV.is_empty, beq_eq_false_iff_ne, ne_eq]
    omega
  · intro prim x y c hcon
    unfold traitOp at hcon
    cases hp : prim x.data y.data with
    | none =>
      rw [hp] at hcon
      exact Option.noConfusion hcon
    | some raw =>
      rw [hp, Option.some_bind] at hcon
      split at hcon
      · exact Option.noConfusion hcon
      · split at hcon
        · exact Option.noConfusion hcon
        · rename_i hc2
          cases hcon
          simp only [NanoBV.is_empty, beq_eq_false_iff_ne, ne_eq]
          exact hc2

/-- Witness for C10 at `w = 8`: `new(5, 0)` is rejected, and the vector `5`
of length 3 built by `new(5, 3)` is not empty. -/
theorem claim_C10_nonzero_length_witness :
    new 8 5 0 = none ∧
    NanoBV.is_empty { data := 5, length := 3 } = false :=
  ⟨(claim_C10_nonzero_length 8).1 5,
    ((claim_C10_nonzero_length 8).2.2.2.1 5 3 { data := 5, length := 3 }
      (by decide)).2.2⟩

end Nanobv
